import Mathlib

/-!
Verification of the rivermap-osmium-tools core logic: the tag-filter rule
engine, the waterway/area CSV emitters of osmium_waterway_ids, and the
river-system join table of osmium_rivermap.  The definitions below are a
shallow embedding of the C++ sources; geometry construction, OSM file
parsing and the OGR writer are external-library boundaries and are not
modelled.
-/

namespace Rivermap

/-- Tags of an OSM object: an ordered association list of key/value pairs,
mirroring osmium::TagList as consumed through get_value_by_key / has_key. -/
abbrev Tags := List (String × String)

/-- Lookup of a tag value by key; mirrors TagList::get_value_by_key, which
returns nullptr when the key is absent (modelled as none). -/
def getValueByKey (tags : Tags) (key : String) : Option String :=
  (tags.find? (fun t => t.1 == key)).map (fun t => t.2)

/-- Presence test for a tag key; mirrors TagList::has_key. -/
def hasKey (tags : Tags) (key : String) : Bool :=
  (getValueByKey tags key).isSome

/-- One rule of the tag filter: polarity (isInclude), key, and an optional
exact value, where none stands for the wildcard matching any value.
Mirrors the (bool, key, value) triples fed to osmium::TagsFilter::add_rule. -/
structure TagRule where
  isInclude : Bool
  key : String
  value : Option String
deriving DecidableEq

/-- Matching of a single rule against a single tag: the keys must be equal
and the value must be equal unless the rule value is the wildcard. -/
def ruleMatchesTag (r : TagRule) (t : String × String) : Bool :=
  r.key == t.1 &&
    (match r.value with
     | none => true
     | some v => v == t.2)

/-- Modelled from the spec: the per-tag decision of osmium::TagsFilter,
whose implementation is an external library outside src/.  Per spec 4.1 a
tag passes iff some include rule matches it and no exclude rule matches it
(exclude rules take precedence over include rules). -/
def tagPasses (rules : List TagRule) (t : String × String) : Bool :=
  (rules.any (fun r => r.isInclude && ruleMatchesTag r t)) &&
  !(rules.any (fun r => !r.isInclude && ruleMatchesTag r t))

/-- Modelled from the spec: osmium::tags::match_any_of, the acceptance test
used by WaterHandler::way and WaterHandler::area.  True iff at least one tag
of the object passes the filter. -/
def matchAnyOf (tags : Tags) (rules : List TagRule) : Bool :=
  tags.any (tagPasses rules)

/-- Hard-coded filter built in main of osmium_waterway_ids (the variant
without a rules file): thirteen include rules, no exclude rules. -/
def shippedFilter : List TagRule :=
  [⟨true, "natural", some "water"⟩,
   ⟨true, "natural", some "coastline"⟩,
   ⟨true, "landuse", some "reservoir"⟩,
   ⟨true, "landuse", some "basin"⟩,
   ⟨true, "waterway", some "stream"⟩,
   ⟨true, "waterway", some "river"⟩,
   ⟨true, "waterway", some "ditch"⟩,
   ⟨true, "waterway", some "canal"⟩,
   ⟨true, "waterway", some "drain"⟩,
   ⟨true, "waterway", some "weir"⟩,
   ⟨true, "waterway", some "dam"⟩,
   ⟨true, "waterway", some "waterfall"⟩,
   ⟨true, "waterway", some "fish_pass"⟩]

/-- One emitted CSV record of osmium_waterway_ids: object id, classifying
tag value, and the emitted node id list.  output_waterway and output_area
write exactly these three components to the stream, in this order. -/
structure Record where
  id : Int
  typ : String
  nodeIds : List Int
deriving DecidableEq

/-- Rendering of a record as the single comma-delimited line the C++
stream operators produce: id, comma, value, then a comma before every
node id. -/
def renderRecord (r : Record) : String :=
  toString r.id ++ "," ++ r.typ ++
    String.join (r.nodeIds.map (fun n => "," ++ toString n))

/-- An OSM way as consumed by the handlers: id, tags, ordered member node
ids (NodeRef::ref of way.nodes() in order). -/
structure Way where
  id : Int
  tags : List (String × String)
  nodes : List Int

/-- WaterHandler::output_waterway: if the given key has a value in the tag
list, emit one record with the way id, that value, and all member node ids
in way order; otherwise emit nothing. -/
def outputWaterway (w : Way) (tagKey : String) : List Record :=
  match getValueByKey w.tags tagKey with
  | some v => [⟨w.id, v, w.nodes⟩]
  | none => []

/-- Classifying key of a tag list: the first present key in the fixed
priority order waterway, natural, landuse, mirroring the if/else chain of
WaterHandler::way. -/
def classifyKey (tags : Tags) : Option String :=
  if hasKey tags "waterway" then some "waterway"
  else if hasKey tags "natural" then some "natural"
  else if hasKey tags "landuse" then some "landuse"
  else none

/-- WaterHandler::way: if the way passes the filter, dispatch on the first
present key among waterway, natural, landuse; waterway records go to the
way stream (first component), natural and landuse records go to the area
stream (second component); a passing way with none of the three keys
produces no output. -/
def handleWay (rules : List TagRule) (w : Way) : List Record × List Record :=
  if matchAnyOf w.tags rules then
    if hasKey w.tags "waterway" then (outputWaterway w "waterway", [])
    else if hasKey w.tags "natural" then ([], outputWaterway w "natural")
    else if hasKey w.tags "landuse" then ([], outputWaterway w "landuse")
    else ([], [])
  else ([], [])

/-- An assembled area as consumed by WaterHandler::area: the synthetic area
id, the original contributing way or relation id (Area::orig_id), tags, and
the outer and inner rings as ordered lists of node ids. -/
structure Area where
  areaId : Int
  origId : Int
  tags : List (String × String)
  outerRings : List (List Int)
  innerRings : List (List Int)

/-- WaterHandler::output_area: if the given key has a value, emit one record
with the original id (orig_id, not the synthetic area id), that value, and
the node ids of every outer ring concatenated in ring order; inner rings
are never read. -/
def outputArea (a : Area) (tagKey : String) : List Record :=
  match getValueByKey a.tags tagKey with
  | some v => [⟨a.origId, v, a.outerRings.flatten⟩]
  | none => []

/-- WaterHandler::area: if the area passes the filter, dispatch on natural
then landuse (never waterway); all area records go to the area stream. -/
def handleArea (rules : List TagRule) (a : Area) : List Record :=
  if matchAnyOf a.tags rules then
    if hasKey a.tags "natural" then outputArea a "natural"
    else if hasKey a.tags "landuse" then outputArea a "landuse"
    else []
  else []

/-- Helper: split a character list at the first occurrence of the
separator, returning the prefix before it and, when the separator occurs,
the remainder after it. -/
def splitAtChar (sep : Char) : List Char → List Char × Option (List Char)
  | [] => ([], none)
  | c :: cs =>
    if c = sep then ([], some cs)
    else
      let r := splitAtChar sep cs
      (c :: r.1, r.2)

/-- Modelled from the spec: the rule expression parser of util.hpp
(get_filter_expression / get_tag_matcher), which is part of this repository
but not present under src/.  Grammar per spec 4.1: [!]key[=value]; a leading
exclamation mark means exclude, a bare key means wildcard value, key=value
means exact match; an empty key (in particular an empty expression) is a
parse failure (none). -/
def parseRule (s : String) : Option TagRule :=
  match s.toList with
  | [] => none
  | c :: cs =>
    let isInc : Bool := c != '!'
    let body := if c = '!' then cs else c :: cs
    match splitAtChar '=' body with
    | (k, none) => if k.isEmpty then none else some ⟨isInc, String.mk k, none⟩
    | (k, some v) => if k.isEmpty then none else some ⟨isInc, String.mk k, some (String.mk v)⟩

/-- Comment stripping of WaterHandler::read_expressions_file: erase the
line from the first hash character onward (find_first_of then erase keeps
exactly the characters before the first hash). -/
def stripComment (line : String) : String :=
  String.mk (line.toList.takeWhile (fun c => c ≠ '#'))

/-- Carriage-return stripping of WaterHandler::read_expressions_file:
remove one trailing CR if present (the back() == CR check followed by
resize). -/
def stripCR (line : String) : String :=
  if line.toList.getLast? = some '\r' then String.mk line.toList.dropLast else line

/-- WaterHandler::parse_and_add_expression: the parsed expression is added
to the filter by the call add_rule(true, get_tag_matcher(p.second)) at
part_000 line 122, whose first argument is the literal true.  Whatever
polarity the expression grammar parsed is therefore discarded: every rule
loaded from a rules file enters the filter as an include rule. -/
def loadedRule (r : TagRule) : TagRule := ⟨true, r.key, r.value⟩

/-- WaterHandler::read_expressions_file over the list of lines of the rules
file.  For each line the text from the first hash onward is erased; if the
result is empty the line is skipped; otherwise one trailing CR is removed
and the line is parsed and added via parse_and_add_expression, which
forces include polarity; a parse failure throws, modelled as an error
carrying the offending expression.  Note the emptiness test sits between
the two strippings, exactly as in the source. -/
def readExpressionsFile : List String → Except String (List TagRule)
  | [] => Except.ok []
  | line :: rest =>
    if (stripComment line).isEmpty then readExpressionsFile rest
    else
      match parseRule (stripCR (stripComment line)) with
      | some r => (readExpressionsFile rest).map (fun rs => loadedRule r :: rs)
      | none => Except.error (stripCR (stripComment line))

/-- Observable events of main of osmium_waterway_ids (the rules-file
variant), in program order: opening of the two output files, addition of a
parsed rule, the fatal abort on a parse failure, and the start of reading
the OSM input. -/
inductive MainEvent where
  | openWayFile
  | openAreaFile
  | addRuleEvent (r : TagRule)
  | abortRun
  | readOsmInput
deriving DecidableEq

/-- Events produced while parsing the rules file: one addRuleEvent per
parsed rule (added with forced include polarity, as add_rule(true, ...)
does), and on the first parse failure an abortRun that ends the run (the
thrown exception is caught in main, which exits). -/
def exprEvents : List String → List MainEvent
  | [] => []
  | line :: rest =>
    if (stripComment line).isEmpty then exprEvents rest
    else
      match parseRule (stripCR (stripComment line)) with
      | some r => MainEvent.addRuleEvent (loadedRule r) :: exprEvents rest
      | none => [MainEvent.abortRun]

/-- Event trace of main of osmium_waterway_ids: the WaterHandler
constructor opens (creates) the way file and then the area file, then the
rules file is parsed, and only if parsing succeeded is the OSM input read.
This order is taken directly from main: the handler is constructed at line
169 and read_expressions_file is called at line 170. -/
def mainTrace (ruleLines : List String) : List MainEvent :=
  MainEvent.openWayFile :: MainEvent.openAreaFile ::
    (exprEvents ruleLines ++
      match readExpressionsFile ruleLines with
      | Except.ok _ => [MainEvent.readOsmInput]
      | Except.error _ => [])

/-- Errors thrown by RiversystemMap::load in osmium_rivermap.cpp:
unreadable covers the empty-header case (message starting with Can and a
file name), wrongHeader carries the offending header line. -/
inductive LoadError where
  | unreadable
  | wrongHeader (h : String)
deriving DecidableEq

/-- RiversystemMap state: the interned name pool (std::set of strings, the
c_str pointers of which are shared) and the id-to-name map, modelled as an
association list from id to an index into the pool so that pointer sharing
becomes index equality. -/
structure RiversystemMap where
  names : List String
  id2Name : List (Int × Nat)

/-- RiversystemMap with no entries. -/
def emptyRiversystemMap : RiversystemMap := ⟨[], []⟩

/-- RiversystemMap::insert: intern the name in the pool (reusing the
existing element when the name is already present, as std::set::insert
does) and record id to interned-name; std::map::insert does not overwrite
an existing id. -/
def rsInsert (m : RiversystemMap) (id : Int) (name : String) : RiversystemMap :=
  let idx_names : Nat × List String :=
    match m.names.indexOf? name with
    | some i => (i, m.names)
    | none => (m.names.length, m.names ++ [name])
  let id2 :=
    match m.id2Name.lookup id with
    | some _ => m.id2Name
    | none => m.id2Name ++ [(id, idx_names.1)]
  ⟨idx_names.2, id2⟩

/-- RiversystemMap::getName: look the id up in the map; absent ids yield
the empty string (m_empty), present ids yield the interned name. -/
def getName (m : RiversystemMap) (id : Int) : String :=
  match m.id2Name.lookup id with
  | some i => m.names.getD i ""
  | none => ""

/-- Helper: decimal digits to a natural number, failing on any non-digit
character. -/
def digitsToNatAux : List Char → Nat → Option Nat
  | [], acc => some acc
  | c :: cs, acc =>
    if c.isDigit then digitsToNatAux cs (acc * 10 + (c.toNat - 48)) else none

/-- Helper: parse an optionally negated decimal integer from characters,
as the stream extraction ifs >> id does for a well-formed field. -/
def charsToInt : List Char → Option Int
  | [] => none
  | '-' :: cs => if cs.isEmpty then none else (digitsToNatAux cs 0).map (fun n => -(n : Int))
  | cs => (digitsToNatAux cs 0).map (fun n => (n : Int))

/-- Parsing of one data line of the river-system CSV, mirroring the stream
extraction id >> comma >> name for a well-formed single-token line.  The
source does not check extraction failure (behavior on malformed numeric
fields is undefined per the spec, section 9); such lines are skipped here
and are not exercised by any claim. -/
def parseCsvEntry (line : String) : Option (Int × String) :=
  match splitAtChar ',' line.toList with
  | (_, none) => none
  | (i, some n) => (charsToInt i).map (fun id => (id, String.mk n))

/-- RiversystemMap::load over the list of lines of the CSV file.  The first
line must exist, be nonempty (else the unreadable error) and equal the
literal header id,rsystem (else the wrongHeader error); only then are the
remaining lines inserted.  The eof-loop artifact of the source (a repeated
insert of the last entry on a trailing newline) is observably a no-op
because std::map::insert does not overwrite. -/
def loadRiversystems (lines : List String) : Except LoadError RiversystemMap :=
  match lines with
  | [] => Except.error LoadError.unreadable
  | header :: rest =>
    if header.isEmpty then Except.error LoadError.unreadable
    else if header != "id,rsystem" then Except.error (LoadError.wrongHeader header)
    else
      Except.ok
        (rest.foldl
          (fun m line =>
            match parseCsvEntry line with
            | some e => rsInsert m e.1 e.2
            | none => m)
          emptyRiversystemMap)

/-- One feature row of the waterway layer written by osmium_rivermap.cpp:
id, optional name (the field is set only when the name tag is present),
type, and the river-system name. -/
structure Feature where
  id : Int
  name : Option String
  typ : String
  rsystem : String
deriving DecidableEq

/-- MyOGRHandler::way of osmium_rivermap.cpp: a way is emitted iff its tags
contain the key waterway (any value, no rule set involved); the type field
is the waterway value, the name field is set only when a name tag exists,
and the rsystem field is always the join-table lookup of the way id.
Geometry construction (create_linestring) is an external-library boundary
and its failure path is not modelled. -/
def rivermapWay (m : RiversystemMap) (w : Way) : Option Feature :=
  match getValueByKey w.tags "waterway" with
  | some wv => some ⟨w.id, getValueByKey w.tags "name", wv, getName m w.id⟩
  | none => none

/-- Helper: unfolding of the per-tag filter decision into the existential
form used by the spec. -/
lemma tagPasses_iff (rules : List TagRule) (t : String × String) :
    tagPasses rules t = true ↔
      (∃ r ∈ rules, r.isInclude = true ∧ ruleMatchesTag r t = true) ∧
      ¬ (∃ r ∈ rules, r.isInclude = false ∧ ruleMatchesTag r t = true) := by
  unfold tagPasses
  rw [Bool.and_eq_true, Bool.not_eq_true', List.any_eq_false]
  constructor
  · rintro ⟨h1, h2⟩
    rw [List.any_eq_true] at h1
    obtain ⟨r, hr, hb⟩ := h1
    rw [Bool.and_eq_true] at hb
    refine ⟨⟨r, hr, hb.1, hb.2⟩, ?_⟩
    rintro ⟨s, hs, hsi, hsm⟩
    have := h2 s hs
    rw [hsi, hsm] at this
    simp at this
  · rintro ⟨⟨r, hr, hri, hrm⟩, h2⟩
    refine ⟨?_, ?_⟩
    · rw [List.any_eq_true]
      exact ⟨r, hr, by rw [Bool.and_eq_true]; exact ⟨hri, hrm⟩⟩
    · intro s hs
      cases hsi : s.isInclude
      · cases hsm : ruleMatchesTag s t
        · simp
        · exact absurd ⟨s, hs, hsi, hsm⟩ h2
      · simp

/-- Helper: unfolding of matchAnyOf into the existential form used by the
spec (some include rule matches a tag that no exclude rule matches). -/
lemma matchAnyOf_iff_exists (rules : List TagRule) (tags : Tags) :
    matchAnyOf tags rules = true ↔
      ∃ t ∈ tags,
        (∃ r ∈ rules, r.isInclude = true ∧ ruleMatchesTag r t = true) ∧
        ¬ (∃ r ∈ rules, r.isInclude = false ∧ ruleMatchesTag r t = true) := by
  unfold matchAnyOf
  rw [List.any_eq_true]
  exact exists_congr (fun t => and_congr_right (fun _ => tagPasses_iff rules t))

/-- Helper: every rule of the shipped hard-coded filter is an include
rule. -/
lemma shippedFilter_all_include : ∀ r ∈ shippedFilter, r.isInclude = true := by
  decide

/-- C1: for every way accepted by the tag filter, the classifying key is
the first present key in the priority order waterway, natural, landuse;
on tags with natural=water and landuse=basin it is natural; a way
classified by waterway is written to the way sink and a way classified by
natural or landuse to the area sink, with the classifying value as the
type field of the single emitted record. -/
theorem classifyKey_priority_and_sink_routing :
    (∀ tags : Tags,
        classifyKey tags = ["waterway", "natural", "landuse"].find? (fun k => hasKey tags k))
    ∧ classifyKey [("natural", "water"), ("landuse", "basin")] = some "natural"
    ∧ (∀ (rules : List TagRule) (w : Way) (k v : String),
        matchAnyOf w.tags rules = true →
        classifyKey w.tags = some k →
        getValueByKey w.tags k = some v →
        handleWay rules w =
          (if k == "waterway" then ([⟨w.id, v, w.nodes⟩], []) else ([], [⟨w.id, v, w.nodes⟩]))) := by
  refine ⟨?_, by decide, ?_⟩
  · intro tags
    cases h1 : hasKey tags "waterway" <;> cases h2 : hasKey tags "natural" <;>
      cases h3 : hasKey tags "landuse" <;>
        simp [classifyKey, h1, h2, h3, List.find?]
  · intro rules w k v hm hc hv
    cases h1 : hasKey w.tags "waterway" <;> cases h2 : hasKey w.tags "natural" <;>
      cases h3 : hasKey w.tags "landuse" <;>
        simp [classifyKey, h1, h2, h3] at hc <;>
      subst hc <;>
        simp [handleWay, outputWaterway, hm, h1, h2, h3, hv]

/-- Witness for C1: a concrete accepted way tagged waterway=river with
nodes 1,2,3 is routed to the way sink as one record carrying the value
river and the full node list. -/
theorem classifyKey_priority_and_sink_routing_witness :
    handleWay shippedFilter ⟨7, [("waterway", "river")], [1, 2, 3]⟩ =
      ([⟨7, "river", [1, 2, 3]⟩], []) := by
  have h := classifyKey_priority_and_sink_routing.2.2 shippedFilter
    ⟨7, [("waterway", "river")], [1, 2, 3]⟩ "waterway" "river"
    (by decide) (by decide) (by decide)
  simpa using h

/-- C2: matchAnyOf is true iff some include rule matches a tag of the
object and no exclude rule matches that same tag; the shipped
configuration contains only include rules, so for it acceptance reduces to
the existence of a matching include rule. -/
theorem matchAnyOf_include_exclude_semantics :
    (∀ (rules : List TagRule) (tags : Tags),
        matchAnyOf tags rules = true ↔
          ∃ t ∈ tags,
            (∃ r ∈ rules, r.isInclude = true ∧ ruleMatchesTag r t = true) ∧
            ¬ (∃ r ∈ rules, r.isInclude = false ∧ ruleMatchesTag r t = true))
    ∧ (∀ r ∈ shippedFilter, r.isInclude = true)
    ∧ (∀ tags : Tags,
        matchAnyOf tags shippedFilter = true ↔
          ∃ t ∈ tags, ∃ r ∈ shippedFilter, ruleMatchesTag r t = true) := by
  refine ⟨matchAnyOf_iff_exists, shippedFilter_all_include, ?_⟩
  intro tags
  rw [matchAnyOf_iff_exists]
  constructor
  · rintro ⟨t, ht, ⟨r, hr, _, hrm⟩, _⟩
    exact ⟨t, ht, r, hr, hrm⟩
  · rintro ⟨t, ht, r, hr, hrm⟩
    refine ⟨t, ht, ⟨r, hr, shippedFilter_all_include r hr, hrm⟩, ?_⟩
    rintro ⟨s, hs, hsi, _⟩
    rw [shippedFilter_all_include s hs] at hsi
    exact absurd hsi (by simp)

/-- Witness for C2: tags natural=water are accepted by the shipped filter,
as certified by instantiating the equivalence at that concrete tag list. -/
theorem matchAnyOf_include_exclude_semantics_witness :
    matchAnyOf [("natural", "water")] shippedFilter = true ∧
    (⟨true, "natural", some "water"⟩ : TagRule).isInclude = true :=
  ⟨(matchAnyOf_include_exclude_semantics.2.2 [("natural", "water")]).2
      ⟨("natural", "water"), by decide, ⟨true, "natural", some "water"⟩, by decide, by decide⟩,
   matchAnyOf_include_exclude_semantics.2.1 ⟨true, "natural", some "water"⟩ (by decide)⟩

/-- C9: a way accepted by the filter whose tags contain none of the keys
waterway, natural and landuse produces no record in either sink. -/
theorem matched_way_without_classifying_key_dropped :
    ∀ (rules : List TagRule) (w : Way),
      matchAnyOf w.tags rules = true →
      hasKey w.tags "waterway" = false →
      hasKey w.tags "natural" = false →
      hasKey w.tags "landuse" = false →
      handleWay rules w = ([], []) := by
  intro rules w hm h1 h2 h3
  simp [handleWay, hm, h1, h2, h3]

/-- Witness for C9: a way tagged foo=bar is accepted by a filter holding
the single wildcard include rule on key foo, yet nothing is emitted. -/
theorem matched_way_without_classifying_key_dropped_witness :
    handleWay [⟨true, "foo", none⟩] ⟨1, [("foo", "bar")], [1, 2]⟩ = ([], []) :=
  matched_way_without_classifying_key_dropped [⟨true, "foo", none⟩]
    ⟨1, [("foo", "bar")], [1, 2]⟩ (by decide) (by decide) (by decide) (by decide)

/-- Counterexample to C3 as stated: the way with id 1, tags natural=water
and nodes 1,2,3 is accepted by the shipped filter, yet the way-output sink
receives no line for it at all (the record goes to the area sink instead),
so it is false that every accepted way appears exactly once in the
way-output sink. -/
theorem way_roundtrip_counterexample :
    matchAnyOf [("natural", "water")] shippedFilter = true ∧
    (handleWay shippedFilter ⟨1, [("natural", "water")], [1, 2, 3]⟩).1 = [] ∧
    (handleWay shippedFilter ⟨1, [("natural", "water")], [1, 2, 3]⟩).2 =
      [⟨1, "water", [1, 2, 3]⟩] ∧
    ¬ (∃ v, (handleWay shippedFilter ⟨1, [("natural", "water")], [1, 2, 3]⟩).1 =
          [⟨1, v, [1, 2, 3]⟩]) := by
  refine ⟨rfl, rfl, rfl, ?_⟩
  rintro ⟨v, hv⟩
  rw [show (handleWay shippedFilter ⟨1, [("natural", "water")], [1, 2, 3]⟩).1 = [] from rfl]
    at hv
  exact absurd hv (by simp)

/-- C3 amended: every way accepted by the filter that carries a
classifying key appears exactly once in the sink selected by that key
(way sink for waterway, area sink for natural or landuse), as a single
record holding its numeric id, the classifying tag value, and every member
node id verbatim in way order; the other sink receives nothing for it. -/
theorem way_roundtrip_per_selected_sink :
    ∀ (rules : List TagRule) (w : Way) (k v : String),
      matchAnyOf w.tags rules = true →
      classifyKey w.tags = some k →
      getValueByKey w.tags k = some v →
      (k = "waterway" → handleWay rules w = ([⟨w.id, v, w.nodes⟩], [])) ∧
      (k ≠ "waterway" → handleWay rules w = ([], [⟨w.id, v, w.nodes⟩])) := by
  intro rules w k v hm hc hv
  cases h1 : hasKey w.tags "waterway" <;> cases h2 : hasKey w.tags "natural" <;>
    cases h3 : hasKey w.tags "landuse" <;>
      simp [classifyKey, h1, h2, h3] at hc <;>
    subst hc <;>
      simp [handleWay, outputWaterway, hm, h1, h2, h3, hv]

/-- Witness for the amended C3: the accepted way tagged waterway=stream
with nodes 4,5 lands exactly once in the way sink with its node list, and
the accepted way tagged landuse=basin with nodes 8,9 lands exactly once in
the area sink with its node list. -/
theorem way_roundtrip_per_selected_sink_witness :
    handleWay shippedFilter ⟨2, [("waterway", "stream")], [4, 5]⟩ =
      ([⟨2, "stream", [4, 5]⟩], []) ∧
    handleWay shippedFilter ⟨3, [("landuse", "basin")], [8, 9]⟩ =
      ([], [⟨3, "basin", [8, 9]⟩]) :=
  ⟨(way_roundtrip_per_selected_sink shippedFilter ⟨2, [("waterway", "stream")], [4, 5]⟩
      "waterway" "stream" (by decide) (by decide) (by decide)).1 rfl,
   (way_roundtrip_per_selected_sink shippedFilter ⟨3, [("landuse", "basin")], [8, 9]⟩
      "landuse" "basin" (by decide) (by decide) (by decide)).2 (by decide)⟩

/-- C4: an accepted area classified by natural, or by landuse when natural
is absent, emits exactly one record beginning with the original
contributing way or relation id (not the synthetic area id), then the
classifying tag value, then the concatenation of every outer ring in ring
order; the output depends neither on the inner rings nor on the synthetic
area id. -/
theorem area_output_orig_id_outer_rings_only :
    ∀ (rules : List TagRule) (a : Area) (k v : String),
      matchAnyOf a.tags rules = true →
      ((k = "natural" ∧ hasKey a.tags "natural" = true) ∨
        (k = "landuse" ∧ hasKey a.tags "natural" = false ∧ hasKey a.tags "landuse" = true)) →
      getValueByKey a.tags k = some v →
      handleArea rules a = [⟨a.origId, v, a.outerRings.flatten⟩] ∧
      (∀ innerRings aid,
        handleArea rules { a with innerRings := innerRings, areaId := aid } =
          handleArea rules a) := by
  intro rules a k v hm hk hv
  rcases hk with ⟨hk, h2⟩ | ⟨hk, h2, h3⟩ <;> subst hk
  · exact ⟨by simp [handleArea, outputArea, hm, h2, hv],
      fun innerRings aid => by simp [handleArea, outputArea, hm, h2]⟩
  · exact ⟨by simp [handleArea, outputArea, hm, h2, h3, hv],
      fun innerRings aid => by simp [handleArea, outputArea, hm, h2, h3]⟩

/-- Witness for C4: an accepted area with synthetic id 20, original id 10,
one outer ring of four nodes and one inner ring of four nodes emits one
record carrying the original id and exactly the four outer-ring node ids;
the inner ring contributes nothing. -/
theorem area_output_orig_id_outer_rings_only_witness :
    handleArea shippedFilter ⟨20, 10, [("natural", "water")], [[1, 2, 3, 4]], [[5, 6, 7, 8]]⟩ =
      [⟨10, "water", [1, 2, 3, 4]⟩] ∧
    (handleArea shippedFilter
        ⟨20, 10, [("natural", "water")], [[1, 2, 3, 4]], [[5, 6, 7, 8]]⟩).all
      (fun r => r.nodeIds.length == 4) = true := by
  have h := (area_output_orig_id_outer_rings_only shippedFilter
    ⟨20, 10, [("natural", "water")], [[1, 2, 3, 4]], [[5, 6, 7, 8]]⟩ "natural" "water"
    (by decide) (Or.inl ⟨rfl, by decide⟩) (by decide)).1
  refine ⟨by simpa using h, ?_⟩
  rw [h]
  rfl

/-- C10: in the rivermap tool a way is emitted to the waterway layer iff
its tags contain the key waterway, whatever its value and with no rule set
involved; every emitted feature has its type set to the waterway value,
its rsystem field always set to the join-table lookup of the way id, and
its name field set exactly when a name tag is present. -/
theorem rivermap_way_emission :
    ∀ (m : RiversystemMap) (w : Way),
      ((rivermapWay m w).isSome = true ↔ hasKey w.tags "waterway" = true) ∧
      (∀ f, rivermapWay m w = some f →
        f.id = w.id ∧
        getValueByKey w.tags "waterway" = some f.typ ∧
        f.rsystem = getName m w.id ∧
        f.name = getValueByKey w.tags "name") := by
  intro m w
  constructor
  · cases hv : getValueByKey w.tags "waterway" <;>
      simp [rivermapWay, hasKey, hv]
  · intro f hf
    cases hv : getValueByKey w.tags "waterway" with
    | none => rw [rivermapWay, hv] at hf; exact absurd hf (by simp)
    | some wv =>
      rw [rivermapWay, hv] at hf
      have hf2 : (⟨w.id, getValueByKey w.tags "name", wv, getName m w.id⟩ : Feature) = f :=
        Option.some.inj hf
      subst hf2
      exact ⟨rfl, rfl, rfl, rfl⟩

/-- Witness for C10: the way with id 5 tagged waterway=river and no name
tag is emitted against the empty join table with type river, no name, and
the empty rsystem string returned by the lookup of id 5. -/
theorem rivermap_way_emission_witness :
    (rivermapWay emptyRiversystemMap ⟨5, [("waterway", "river")], [1, 2]⟩).isSome = true ∧
    getValueByKey [("waterway", "river")] "waterway" = some "river" ∧
    (⟨5, none, "river", ""⟩ : Feature).rsystem = getName emptyRiversystemMap 5 ∧
    (⟨5, none, "river", ""⟩ : Feature).name = getValueByKey [("waterway", "river")] "name" :=
  have h := rivermap_way_emission emptyRiversystemMap ⟨5, [("waterway", "river")], [1, 2]⟩
  have h2 := h.2 ⟨5, none, "river", ""⟩ rfl
  ⟨h.1.2 (by decide), h2.2.1, h2.2.2.1, h2.2.2.2⟩

/-- Formalisation of the claim wording for C6, to be compared with the
source-derived readExpressionsFile: strip comments from every line, drop
the lines that are empty after stripping, then parse each remaining line
after removing a trailing CR into one rule whose polarity add_rule forces
to include, failing as a whole if any line fails. -/
def specParsedRules (lines : List String) : Option (List TagRule) :=
  ((lines.map stripComment).filter (fun l => !l.isEmpty)).mapM
    (fun l => (parseRule (stripCR l)).map loadedRule)

/-- Helper: unfolding of specParsedRules over a cons cell. -/
lemma specParsedRules_cons (l : String) (rest : List String) :
    specParsedRules (l :: rest) =
      if (stripComment l).isEmpty then specParsedRules rest
      else
        match parseRule (stripCR (stripComment l)) with
        | none => none
        | some r => (specParsedRules rest).map (fun rs => loadedRule r :: rs) := by
  unfold specParsedRules
  rw [List.map_cons, List.filter_cons]
  by_cases h : (stripComment l).isEmpty = true
  · simp [h]
  · have hb : (!(stripComment l).isEmpty) = true := by
      have h2 : (stripComment l).isEmpty = false := Bool.not_eq_true _ ▸ h
      simp [h2]
    rw [if_neg h, if_pos hb, List.mapM_cons]
    cases hp : parseRule (stripCR (stripComment l)) with
    | none => simp
    | some r =>
      cases hm : ((rest.map stripComment).filter (fun s => !s.isEmpty)).mapM
          (fun s => (parseRule (stripCR s)).map loadedRule) <;> simp [hm]

/-- Helper: the Except result of the source parser and the Option result
of the claim-side pipeline agree up to toOption. -/
lemma readExpressionsFile_toOption :
    ∀ lines : List String,
      (readExpressionsFile lines).toOption = specParsedRules lines := by
  intro lines
  induction lines with
  | nil => rfl
  | cons l rest ih =>
    rw [readExpressionsFile, specParsedRules_cons]
    by_cases h : (stripComment l).isEmpty = true
    · rw [if_pos h, if_pos h, ih]
    · rw [if_neg h, if_neg h]
      cases hp : parseRule (stripCR (stripComment l)) with
      | none => rfl
      | some r =>
        cases hr : readExpressionsFile rest with
        | error e => rw [← ih, hr]; rfl
        | ok rs => rw [← ih, hr]; rfl

/-- Helper: every rule in a successfully loaded rule set carries include
polarity, since parse_and_add_expression adds with the literal true. -/
lemma readExpressionsFile_all_include :
    ∀ (lines : List String) (rs : List TagRule),
      readExpressionsFile lines = Except.ok rs → ∀ r ∈ rs, r.isInclude = true := by
  intro lines
  induction lines with
  | nil =>
    intro rs h r hr
    rw [readExpressionsFile] at h
    have := Except.ok.inj h
    subst this
    exact absurd hr (by simp)
  | cons l rest ih =>
    intro rs h r hr
    rw [readExpressionsFile] at h
    by_cases he : (stripComment l).isEmpty = true
    · rw [if_pos he] at h; exact ih rs h r hr
    · rw [if_neg he] at h
      cases hp : parseRule (stripCR (stripComment l)) <;> rw [hp] at h
      · exact absurd h (by simp)
      · cases hrest : readExpressionsFile rest <;> rw [hrest] at h
        · exact absurd h (by simp [Except.map])
        · simp only [Except.map] at h
          have := Except.ok.inj h
          subst this
          rcases List.mem_cons.mp hr with h1 | h1
          · subst h1; rfl
          · exact ih _ hrest r h1

/-- Counterexample to C6 as stated, at two concrete inputs.  First, the
line consisting of a single carriage return is empty after comment
stripping and CR stripping, so by the claim it should produce no rule; the
code instead tests emptiness before the CR strip, passes the empty
expression to the parser, and the whole run fails fatally rather than
skipping the line.  Second, the claim says a leading exclamation mark
means an exclude rule, but although the spec grammar parses the polarity,
parse_and_add_expression adds the rule with the literal true, so the line
loading from an exclude expression yields an include rule. -/
theorem rules_file_counterexample :
    (stripCR (stripComment "\r") = "" ∧
      readExpressionsFile ["\r"] = Except.error "" ∧
      readExpressionsFile ["\r"] ≠ Except.ok []) ∧
    (parseRule "!waterway=river" = some ⟨false, "waterway", some "river"⟩ ∧
      readExpressionsFile ["!waterway=river"] =
        Except.ok [⟨true, "waterway", some "river"⟩] ∧
      ∀ rs, readExpressionsFile ["!waterway=river"] = Except.ok rs →
        ¬ (⟨false, "waterway", some "river"⟩ : TagRule) ∈ rs) := by
  refine ⟨⟨rfl, rfl, ?_⟩, rfl, rfl, ?_⟩
  · intro h
    rw [show readExpressionsFile ["\r"] = Except.error "" from rfl] at h
    exact absurd h (by simp)
  · intro rs h hmem
    rw [show readExpressionsFile ["!waterway=river"] =
        Except.ok [⟨true, "waterway", some "river"⟩] from rfl] at h
    have := Except.ok.inj h
    subst this
    exact absurd hmem (by decide)

/-- C6 amended: every line has the text from the first hash onward
stripped; a line that is empty after hash stripping produces no rule; every
line nonempty after hash stripping has one trailing carriage return
stripped and is parsed as an expression into exactly one rule, in order,
whose polarity is always include because add_rule is called with the
literal true (a leading exclamation mark is consumed by the grammar but
its exclude polarity is discarded); a parse failure on any single line
(including a line that the CR strip reduces to the empty string, such as a
lone carriage return) is fatal for the whole run.  Stated as: the parser
succeeds with exactly the rules of the claim-side pipeline, fails exactly
when that pipeline fails, and every loaded rule is an include rule. -/
theorem rules_file_line_handling :
    ∀ (lines : List String) (rs : List TagRule),
      (readExpressionsFile lines = Except.ok rs ↔ specParsedRules lines = some rs) ∧
      ((∃ er, readExpressionsFile lines = Except.error er) ↔ specParsedRules lines = none) ∧
      (readExpressionsFile lines = Except.ok rs → ∀ r ∈ rs, r.isInclude = true) := by
  intro lines rs
  refine ⟨?_, ?_, readExpressionsFile_all_include lines rs⟩ <;>
    rw [← readExpressionsFile_toOption]
  · cases h : readExpressionsFile lines <;> simp [Except.toOption]
  · cases h : readExpressionsFile lines <;> simp [Except.toOption]

/-- Witness for the amended C6: a rules file with a commented rule line, a
blank line, a comment-only line, a CR-terminated wildcard line and an
exclude-syntax line yields exactly the three expected rules, all include,
matching the claim-side pipeline. -/
theorem rules_file_line_handling_witness :
    readExpressionsFile
        ["waterway=river#linear", "", "#only a comment", "natural\r", "!landuse=basin"] =
      Except.ok [⟨true, "waterway", some "river"⟩, ⟨true, "natural", none⟩,
        ⟨true, "landuse", some "basin"⟩] ∧
    specParsedRules
        ["waterway=river#linear", "", "#only a comment", "natural\r", "!landuse=basin"] =
      some [⟨true, "waterway", some "river"⟩, ⟨true, "natural", none⟩,
        ⟨true, "landuse", some "basin"⟩] ∧
    (∀ r ∈ [(⟨true, "waterway", some "river"⟩ : TagRule), ⟨true, "natural", none⟩,
        ⟨true, "landuse", some "basin"⟩], r.isInclude = true) :=
  have h := rules_file_line_handling
    ["waterway=river#linear", "", "#only a comment", "natural\r", "!landuse=basin"]
    [⟨true, "waterway", some "river"⟩, ⟨true, "natural", none⟩,
      ⟨true, "landuse", some "basin"⟩]
  ⟨h.1.2 rfl, rfl, h.2.2 (h.1.2 rfl)⟩

/-- Helper: every event produced while parsing the rules file is either a
rule addition or the abort. -/
lemma mem_exprEvents_shape :
    ∀ (lines : List String) (e : MainEvent), e ∈ exprEvents lines →
      (∃ r, e = MainEvent.addRuleEvent r) ∨ e = MainEvent.abortRun := by
  intro lines
  induction lines with
  | nil => intro e he; simp [exprEvents] at he
  | cons l rest ih =>
    intro e he
    rw [exprEvents] at he
    by_cases h : (stripComment l).isEmpty = true
    · rw [if_pos h] at he; exact ih e he
    · rw [if_neg h] at he
      cases hp : parseRule (stripCR (stripComment l)) <;> rw [hp] at he
      · simp at he; exact Or.inr he
      · rcases List.mem_cons.mp he with h1 | h1
        · exact Or.inl ⟨_, h1⟩
        · exact ih e h1

/-- Helper: a fatal parse error of the rules file shows up as the abort
event of the parsing phase. -/
lemma error_mem_abort :
    ∀ (lines : List String) (er : String), readExpressionsFile lines = Except.error er →
      MainEvent.abortRun ∈ exprEvents lines := by
  intro lines
  induction lines with
  | nil => intro er he; simp [readExpressionsFile] at he
  | cons l rest ih =>
    intro er he
    rw [readExpressionsFile] at he
    rw [exprEvents]
    by_cases h : (stripComment l).isEmpty = true
    · rw [if_pos h] at he; rw [if_pos h]; exact ih er he
    · rw [if_neg h] at he; rw [if_neg h]
      cases hp : parseRule (stripCR (stripComment l)) <;> rw [hp] at he
      · simp
      · cases hr : readExpressionsFile rest with
        | ok rs => rw [hr] at he; simp [Except.map] at he
        | error e2 => exact List.mem_cons_of_mem _ (ih e2 hr)

/-- Counterexample to C5 as stated: on the rules file consisting of the
single malformed line =, the run aborts, yet the trace shows both output
files were opened (created) before the rules file was even read, so it is
false that no output file is created. -/
theorem malformed_rules_counterexample :
    parseRule "=" = none ∧
    mainTrace ["="] = [MainEvent.openWayFile, MainEvent.openAreaFile, MainEvent.abortRun] ∧
    ¬ (MainEvent.openWayFile ∉ mainTrace ["="] ∧ MainEvent.openAreaFile ∉ mainTrace ["="]) := by
  refine ⟨rfl, rfl, ?_⟩
  rintro ⟨h1, _⟩
  exact h1 (by decide)

/-- C5 amended: a malformed rules file line still aborts the run before
any OSM input is read, but both output files have already been opened
(hence created, and left behind empty) by the handler constructor, which
runs before the rules file is parsed. -/
theorem malformed_rules_abort_after_output_files_created :
    ∀ (ruleLines : List String) (er : String),
      readExpressionsFile ruleLines = Except.error er →
      (mainTrace ruleLines).take 2 = [MainEvent.openWayFile, MainEvent.openAreaFile] ∧
      MainEvent.abortRun ∈ mainTrace ruleLines ∧
      MainEvent.readOsmInput ∉ mainTrace ruleLines := by
  intro ruleLines er h
  have htr : mainTrace ruleLines =
      MainEvent.openWayFile :: MainEvent.openAreaFile :: (exprEvents ruleLines ++ []) := by
    unfold mainTrace
    rw [h]
  refine ⟨rfl, ?_, ?_⟩
  · rw [htr, List.append_nil]
    exact List.mem_cons_of_mem _ (List.mem_cons_of_mem _ (error_mem_abort ruleLines er h))
  · rw [htr, List.append_nil]
    intro hmem
    rcases List.mem_cons.mp hmem with h1 | hmem2
    · exact absurd h1 (by simp)
    rcases List.mem_cons.mp hmem2 with h1 | hmem3
    · exact absurd h1 (by simp)
    rcases mem_exprEvents_shape ruleLines _ hmem3 with ⟨r, hr⟩ | hr <;> simp at hr

/-- Witness for the amended C5: concretely for the rules file holding the
single line =, parsing fails, the two open events head the trace, the
abort event occurs, and the input-reading event never does. -/
theorem malformed_rules_abort_after_output_files_created_witness :
    (mainTrace ["="]).take 2 = [MainEvent.openWayFile, MainEvent.openAreaFile] ∧
    MainEvent.abortRun ∈ mainTrace ["="] ∧
    MainEvent.readOsmInput ∉ mainTrace ["="] :=
  malformed_rules_abort_after_output_files_created ["="] "=" rfl

/-- C7: loading the river-system CSV succeeds iff the first line equals
exactly the literal header id,rsystem; a missing or empty first line and
any other first-line content abort with an error, in which case no map is
produced at all (the error result carries no entries). -/
theorem load_requires_exact_header :
    (∀ lines : List String,
        (∃ m, loadRiversystems lines = Except.ok m) ↔ lines.head? = some "id,rsystem")
    ∧ loadRiversystems [] = Except.error LoadError.unreadable
    ∧ (∀ (h : String) (rest : List String), h ≠ "id,rsystem" →
        ∃ e, loadRiversystems (h :: rest) = Except.error e) := by
  refine ⟨?_, rfl, ?_⟩
  · intro lines
    cases lines with
    | nil => simp [loadRiversystems]
    | cons h rest =>
      by_cases hh : h = "id,rsystem"
      · subst hh
        exact iff_of_true ⟨_, rfl⟩ rfl
      · rw [List.head?_cons]
        refine iff_of_false ?_ (by simp [hh])
        rintro ⟨m, hm⟩
        rw [loadRiversystems] at hm
        by_cases he : h.isEmpty = true
        · rw [if_pos he] at hm; exact absurd hm (by simp)
        · rw [if_neg he, if_pos (by simp [bne_iff_ne, hh])] at hm
          exact absurd hm (by simp)
  · intro h rest hne
    by_cases he : h.isEmpty = true
    · exact ⟨LoadError.unreadable, by rw [loadRiversystems, if_pos he]⟩
    · exact ⟨LoadError.wrongHeader h,
        by rw [loadRiversystems, if_neg he, if_pos (by simp [bne_iff_ne, hne])]⟩

/-- Witness for C7: the concrete file starting with the header bad,header
is rejected. -/
theorem load_requires_exact_header_witness :
    ∃ e, loadRiversystems ["bad,header", "5,Rhine"] = Except.error e :=
  load_requires_exact_header.2.2 "bad,header" ["5,Rhine"] (by decide)

/-- C8: after loading, getName is a pure function of the loaded content:
absent ids always yield the empty string, and on the concrete file with
entries 5,Rhine 6,Rhine 7,Danube the ids 5 and 6 yield the identical
interned Rhine entry (the same index into the name pool), id 7 yields
Danube, and the absent id 99 yields the empty string as an ordinary
result. -/
theorem lookup_pure_function_of_content :
    (∀ (m : RiversystemMap) (id : Int),
        m.id2Name.lookup id = none → getName m id = "")
    ∧ (∃ m, loadRiversystems ["id,rsystem", "5,Rhine", "6,Rhine", "7,Danube"] = Except.ok m
        ∧ getName m 5 = "Rhine" ∧ getName m 6 = "Rhine"
        ∧ m.id2Name.lookup 5 = m.id2Name.lookup 6
        ∧ (m.id2Name.lookup 5).isSome = true
        ∧ getName m 7 = "Danube" ∧ getName m 99 = "") := by
  constructor
  · intro m id h
    simp [getName, h]
  · exact ⟨_, rfl, rfl, rfl, rfl, rfl, rfl, rfl⟩

/-- Witness for C8: the absent-id case instantiated on the empty map at id
42 returns the empty string. -/
theorem lookup_pure_function_of_content_witness :
    getName emptyRiversystemMap 42 = "" :=
  lookup_pure_function_of_content.1 emptyRiversystemMap 42 rfl

end Rivermap
